import Mathlib

/-!
Shallow embedding of the octopus CHIP-8 emulator core
(src/src/octopus.cpp together with src/include/octopus.h; src/src/main.cpp
contains an identical inlined copy of the same CPU/GPU code).

Machine integers are modelled as `Nat` with explicit `% 256` / `% 65536`
wherever the C++ `uint8_t` / `uint16_t` arithmetic can wrap.  The SFML
framebuffer (an on/off pixel grid: `OFF_COLOR` = off, everything else = on)
is modelled as a `Nat → Nat → Bool` function indexed by (x, y).  The
`std::map<uint8_t, uint8_t>` keypad becomes a key-sorted association list,
and `std::stack<uint16_t>` becomes a list with its top at the head.
C++ `throw std::runtime_error` becomes `Except EmuError`, with the error
names taken from the spec's error taxonomy (§7); the C++ code raises plain
`runtime_error`s with corresponding messages.
-/

namespace Octopus

/-- Pointwise update of a `Nat`-indexed store (used for `ram`, for the
register file `v`, and generally wherever the C++ code assigns one cell). -/
def updateFn (f : Nat → Nat) (k newVal : Nat) : Nat → Nat :=
  fun a => if a = k then newVal else f a

/-- The display surface: 64×32 on/off pixels, indexed as `fb x y`.
`false` is `OFF_COLOR`, `true` is `ON_COLOR`. -/
abbrev Framebuffer := Nat → Nat → Bool

/-- `sf::Image::setPixel` on the on/off abstraction of the framebuffer. -/
def setPixel (fb : Framebuffer) (x y : Nat) (b : Bool) : Framebuffer :=
  fun x' y' => if x' = x ∧ y' = y then b else fb x' y'

/-- The inner loop body of `GPU::copy_to_framebuffer`: one value of
`bit_index`.  Mirrors the C++ exactly: `pixel_x = 8 - bit_index`,
`current_pixel = (byte >> bit_index) & 1`; a zero bit is skipped, a set bit
XOR-toggles the pixel at `((default_x + pixel_x) % 64, (default_y + pixel_y)
% 32)` and records an overlap when it turns a lit pixel off. -/
def drawBit (dx dy pixelY byte : Nat) (acc : Framebuffer × Nat) (bitIndex : Nat) :
    Framebuffer × Nat :=
  let pixelX := 8 - bitIndex
  let currentPixel := (byte >>> bitIndex) &&& 1
  if currentPixel = 0 then acc
  else
    let x := (dx + pixelX) % 64
    let y := (dy + pixelY) % 32
    if acc.1 x y = false then (setPixel acc.1 x y true, acc.2)
    else (setPixel acc.1 x y false, 1)

/-- The C++ inner loop runs `bit_index` from 8 **down to 0 inclusive**
(nine iterations). -/
def bitIndices : List Nat := [8, 7, 6, 5, 4, 3, 2, 1, 0]

/-- One sprite row (`row.1` = `pixel_y`, `row.2` = the sprite byte). -/
def drawRow (dx dy : Nat) (acc : Framebuffer × Nat) (row : Nat × Nat) :
    Framebuffer × Nat :=
  bitIndices.foldl (drawBit dx dy row.1 row.2) acc

/-- `GPU::copy_to_framebuffer(default_x, default_y, sprite)`.  Returns the
updated framebuffer together with the `overlapping` byte (0 or 1). -/
def copy_to_framebuffer (dx dy : Nat) (sprite : List Nat) (fb : Framebuffer) :
    Framebuffer × Nat :=
  (sprite.enum).foldl (drawRow dx dy) (fb, 0)

/-- `GPU::clear_framebuffer`: every pixel of the 64×32 surface is set to
`OFF_COLOR`. -/
def clear_framebuffer (_fb : Framebuffer) : Framebuffer :=
  fun _ _ => false

/-- Error taxonomy of the spec (§7); the C++ code signals each of these by
throwing `std::runtime_error` with a matching message. -/
inductive EmuError where
  | StackOverflow
  | StackUnderflow
  | UnsupportedInstruction
  deriving DecidableEq

/-- The CPU state (struct `CPU` of octopus.h, plus the framebuffer owned by
its `GPU` member, plus an oracle stream `rng`/`rngIdx` standing for the
C library `rand()` sequence seeded in `CPU::init`). -/
structure CPU where
  ram : Nat → Nat
  stack : List Nat
  v : Nat → Nat
  pc : Nat
  i : Nat
  dt : Nat
  st : Nat
  blocked : Bool
  keys : List (Nat × Nat)
  fb : Framebuffer
  rng : Nat → Nat
  rngIdx : Nat

/-- The 80-byte `fontset` table. -/
def fontset : List Nat :=
  [0xF0, 0x90, 0x90, 0x90, 0xF0,
   0x20, 0x60, 0x20, 0x20, 0x70,
   0xF0, 0x10, 0xF0, 0x80, 0xF0,
   0xF0, 0x10, 0xF0, 0x10, 0xF0,
   0x90, 0x90, 0xF0, 0x10, 0x10,
   0xF0, 0x80, 0xF0, 0x10, 0xF0,
   0xF0, 0x80, 0xF0, 0x90, 0xF0,
   0xF0, 0x10, 0x20, 0x40, 0x40,
   0xF0, 0x90, 0xF0, 0x90, 0xF0,
   0xF0, 0x90, 0xF0, 0x10, 0xF0,
   0xF0, 0x90, 0xF0, 0x90, 0x90,
   0xE0, 0x90, 0xE0, 0x90, 0xE0,
   0xF0, 0x80, 0x80, 0x80, 0xF0,
   0xE0, 0x90, 0x90, 0x90, 0xE0,
   0xF0, 0x80, 0xF0, 0x80, 0xF0,
   0xF0, 0x80, 0xF0, 0x80, 0x80]

/-- The 16-entry keypad map built in `CPU::init` (`KEY_DOWN` = 0 means the
key is released; `KEY_UP` = 1 means pressed). -/
def initKeys : List (Nat × Nat) :=
  [(0x0, 0), (0x1, 0), (0x2, 0), (0x3, 0),
   (0x4, 0), (0x5, 0), (0x6, 0), (0x7, 0),
   (0x8, 0), (0x9, 0), (0xa, 0), (0xb, 0),
   (0xc, 0), (0xd, 0), (0xe, 0), (0xf, 0)]

/-- `CPU::init`.  Note two faithful details: `memset(this->ram, 0, sizeof
this->ram)` zeroes all of memory before the 80 font bytes are copied in,
but `memset(this->v, 0, 0xf)` zeroes only the first **15** register bytes,
so `v[15]` keeps whatever value it had before.  The call stack is not
touched by `init` at all. -/
def CPU.init (m : CPU) : CPU :=
  { m with
    ram := fun a => if a < 80 then fontset.getD a 0 else 0
    v := fun r => if r < 15 then 0 else m.v r
    pc := 0x200
    i := 0
    dt := 0
    st := 0
    blocked := false
    keys := initKeys }

/-- `uint8_t` subtraction `a - b` (two's-complement wraparound mod 256). -/
def sub8 (a b : Nat) : Nat := (a + 256 - b % 256) % 256

/-- `CPU::fetch_opcode`: returns `(high_byte << 8) + low_byte` read at
`pc`/`pc+1` and advances `pc` by `OPCODE_SPAN` (= 2, wrapping as
`uint16_t`).  Faithful to the source, there is **no** bounds check: the C++
reads `ram[pc]` and `ram[pc+1]` unconditionally (an out-of-bounds access of
the 4096-byte array whenever `pc+1 ≥ 4096`); the model simply reads the
total `ram` function there. -/
def CPU.fetch_opcode (m : CPU) : Nat × CPU :=
  ((m.ram m.pc <<< 8) + m.ram (m.pc + 1), { m with pc := (m.pc + 2) % 65536 })

/-- `std::map::operator[]` on the key-sorted association list: returns the
mapped value, inserting a default-constructed `0` entry at the sorted
position when the key is absent (exactly what `this->keys[code]` does). -/
def mapIndex : List (Nat × Nat) → Nat → Nat × List (Nat × Nat)
  | [], code => (0, [(code, 0)])
  | (c, s) :: rest, code =>
    if code = c then (s, (c, s) :: rest)
    else if code < c then (0, (code, 0) :: (c, s) :: rest)
    else
      let r := mapIndex rest code
      (r.1, (c, s) :: r.2)

/-- One iteration of the `LD Vx,K` range-for over the keypad map: a
released entry (`state == KEY_DOWN`) is skipped; a pressed entry stores its
code into `v[target]` and clears `blocked`. -/
def scanStep (target : Nat) (acc : (Nat → Nat) × Bool) (entry : Nat × Nat) :
    (Nat → Nat) × Bool :=
  if entry.2 = 0 then acc
  else (updateFn acc.1 target entry.1, false)

/-- The `0xFx0A` (`LD Vx,K`) body: `blocked = true`, then the scan over the
keypad map in its (sorted) iteration order. -/
def keyScan (target : Nat) (keys : List (Nat × Nat)) (v : Nat → Nat) :
    (Nat → Nat) × Bool :=
  keys.foldl (scanStep target) (v, true)

/-- The `0xFx55` loop: `ram[i + index] = v[index]` for each listed index. -/
def storeRegs (m : CPU) : List Nat → CPU
  | [] => m
  | idx :: rest => storeRegs { m with ram := updateFn m.ram (m.i + idx) (m.v idx) } rest

/-- The `0xFx65` loop: `v[index] = ram[i + index]` for each listed index. -/
def loadRegs (m : CPU) : List Nat → CPU
  | [] => m
  | idx :: rest => loadRegs { m with v := updateFn m.v idx (m.ram (m.i + idx)) } rest

/-- `CPU::execute(opcode)`.  A direct transcription of the switch in
octopus.cpp.  Where the C++ throws, the model returns `.error` (the C++
exception propagates out of `execute`, so no state mutation that precedes a
throw is observable through a *successful* return; the one place where a
mutation precedes a throw — the `std::map` insertion done by
`this->keys[this->v[x]]` before an unknown `0xE` low byte is rejected — is
therefore only observable on the error path, which this model, like every
caller in the program, does not resume). -/
def CPU.execute (m : CPU) (opcode : Nat) : Except EmuError CPU :=
  match (opcode &&& 0xf000) >>> 12 with
  | 0x0 =>
    if opcode = 0x00E0 then
      .ok { m with fb := clear_framebuffer m.fb }
    else if opcode = 0x00EE then
      match m.stack with
      | [] => .error .StackUnderflow
      | top :: rest => .ok { m with pc := top, stack := rest }
    else .ok m
  | 0x1 => .ok { m with pc := opcode &&& 0x0fff }
  | 0x2 =>
    if m.stack.length > 0xf then .error .StackOverflow
    else .ok { m with stack := m.pc :: m.stack, pc := opcode &&& 0x0fff }
  | 0x3 =>
    .ok (if m.v ((opcode &&& 0x0f00) >>> 8) = (opcode &&& 0x00ff) then
      { m with pc := (m.pc + 2) % 65536 } else m)
  | 0x4 =>
    .ok (if m.v ((opcode &&& 0x0f00) >>> 8) ≠ (opcode &&& 0x00ff) then
      { m with pc := (m.pc + 2) % 65536 } else m)
  | 0x5 =>
    .ok (if m.v ((opcode &&& 0x0f00) >>> 8) = m.v ((opcode &&& 0x00f0) >>> 4) then
      { m with pc := (m.pc + 2) % 65536 } else m)
  | 0x6 =>
    .ok { m with v := updateFn m.v ((opcode &&& 0x0f00) >>> 8) (opcode &&& 0x00ff) }
  | 0x7 =>
    let x := (opcode &&& 0x0f00) >>> 8
    .ok { m with v := updateFn m.v x ((m.v x + (opcode &&& 0x00ff)) % 256) }
  | 0x8 =>
    let x := (opcode &&& 0x0f00) >>> 8
    let y := (opcode &&& 0x00f0) >>> 4
    match opcode &&& 0x000f with
    | 0x0 => .ok { m with v := updateFn m.v x (m.v y) }
    | 0x1 => .ok { m with v := updateFn m.v x (m.v x ||| m.v y) }
    | 0x2 => .ok { m with v := updateFn m.v x (m.v x &&& m.v y) }
    | 0x3 => .ok { m with v := updateFn m.v x (m.v x ^^^ m.v y) }
    | 0x4 =>
      let carry := if m.v x + m.v y ≥ 0xff then 1 else 0
      let v1 := updateFn m.v x ((m.v x + m.v y) % 256)
      .ok { m with v := updateFn v1 0xf carry }
    | 0x5 =>
      let notBorrow := if m.v x ≥ m.v y then 1 else 0
      let v1 := updateFn m.v x (sub8 (m.v x) (m.v y))
      .ok { m with v := updateFn v1 0xf notBorrow }
    | 0x6 =>
      let lsb := m.v x &&& 0x001
      let v1 := updateFn m.v x (m.v x / 2)
      .ok { m with v := updateFn v1 0xf lsb }
    | 0x7 =>
      let v1 := updateFn m.v x (sub8 (m.v y) (m.v x))
      let vf := if v1 y > v1 x then 1 else 0
      .ok { m with v := updateFn v1 0xf vf }
    | 0xE =>
      let msb := m.v x &&& 0x80
      let v1 := updateFn m.v x ((m.v x * 2) % 256)
      .ok { m with v := updateFn v1 0xf (if msb > 0 then 1 else 0) }
    | _ => .error .UnsupportedInstruction
  | 0x9 =>
    .ok (if m.v ((opcode &&& 0x0f00) >>> 8) ≠ m.v ((opcode &&& 0x00f0) >>> 4) then
      { m with pc := (m.pc + 2) % 65536 } else m)
  | 0xA => .ok { m with i := opcode &&& 0x0fff }
  | 0xB => .ok { m with pc := ((opcode &&& 0x0fff) + m.v 0) % 65536 }
  | 0xC =>
    let rv := (m.rng m.rngIdx % 256) &&& (opcode &&& 0x00ff)
    .ok { m with v := updateFn m.v ((opcode &&& 0x0f00) >>> 8) rv
                 rngIdx := m.rngIdx + 1 }
  | 0xD =>
    let len := opcode &&& 0x000f
    let sprite := (List.range len).map (fun b => m.ram (m.i + b))
    let res := copy_to_framebuffer (m.v ((opcode &&& 0x0f00) >>> 8))
      (m.v ((opcode &&& 0x00f0) >>> 4)) sprite m.fb
    .ok { m with fb := res.1, v := updateFn m.v 0xf res.2 }
  | 0xE =>
    let lk := mapIndex m.keys (m.v ((opcode &&& 0x0f00) >>> 8))
    match opcode &&& 0x00ff with
    | 0x9E =>
      .ok { m with keys := lk.2
                   pc := if lk.1 = 1 then (m.pc + 2) % 65536 else m.pc }
    | 0xA1 =>
      .ok { m with keys := lk.2
                   pc := if lk.1 = 0 then (m.pc + 2) % 65536 else m.pc }
    | _ => .error .UnsupportedInstruction
  | 0xF =>
    let x := (opcode &&& 0x0f00) >>> 8
    match opcode &&& 0x00ff with
    | 0x07 => .ok { m with v := updateFn m.v x m.dt }
    | 0x0A =>
      let res := keyScan x m.keys m.v
      .ok { m with v := res.1, blocked := res.2 }
    | 0x15 => .ok { m with dt := m.v x }
    | 0x18 => .ok { m with st := m.v x }
    | 0x1E => .ok { m with i := (m.i + m.v x) % 65536 }
    | 0x29 => .ok { m with i := (m.v x * 5) % 65536 }
    | 0x33 =>
      let hundreds := m.v x / 100
      let tens := (m.v x - hundreds * 100) / 10
      let ones := m.v x - hundreds * 100 - tens * 10
      let r3 := updateFn (updateFn (updateFn m.ram m.i hundreds) (m.i + 1) tens) (m.i + 2) ones
      .ok { m with ram := r3 }
    | 0x55 => .ok (storeRegs m (List.range (x + 1)))
    | 0x65 => .ok (loadRegs m (List.range (x + 1)))
    | _ => .error .UnsupportedInstruction
  | _ => .error .UnsupportedInstruction

/-- `CPU::cycle`: fetch (this already advances `pc` by 2), return early on
the `'\0'` sentinel, otherwise execute and, if the instruction left the
engine blocked, rewind `pc` by 2 (`uint16_t` subtraction). -/
def CPU.cycle (m : CPU) : Except EmuError CPU :=
  let f := m.fetch_opcode
  if f.1 = 0 then .ok f.2
  else
    match f.2.execute f.1 with
    | .error e => .error e
    | .ok m2 =>
      if m2.blocked then .ok { m2 with pc := (m2.pc + 65534) % 65536 }
      else .ok m2

/-- `CPU::tick`: each timer decrements when nonzero. -/
def CPU.tick (m : CPU) : CPU :=
  { m with dt := if m.dt > 0 then m.dt - 1 else m.dt
           st := if m.st > 0 then m.st - 1 else m.st }

/-- Plain association-list lookup on the keypad map (observation helper used
to state keypad properties; `std::map::find` semantics without insertion). -/
def lookupKeys : List (Nat × Nat) → Nat → Option Nat
  | [], _ => none
  | (c, s) :: rest, code => if code = c then some s else lookupKeys rest code

/-- A keypad map in which exactly the key `k` is pressed and the other
standard keys are released. -/
def pressedKeys (k : Nat) : List (Nat × Nat) :=
  (List.range 16).map (fun c => (c, if c = k then 1 else 0))

/-- `n` consecutive invocations of `CPU::cycle` (an exception aborts the
run, as it does in the host loop). -/
def cycleN : Nat → CPU → Except EmuError CPU
  | 0, m => .ok m
  | n + 1, m =>
    match m.cycle with
    | .error e => .error e
    | .ok m' => cycleN n m'

/-- `n` consecutive executions of the fixed `CALL 0x345` instruction
(opcode `0x2345`), modelling nested subroutine calls with no intervening
`RET`. -/
def callN : Nat → CPU → Except EmuError CPU
  | 0, m => .ok m
  | n + 1, m =>
    match m.execute 0x2345 with
    | .error e => .error e
    | .ok m' => callN n m'

/-- A freshly initialised machine: zero memory, empty stack, zero
registers, `pc = 0x200`, all keys released, dark framebuffer. -/
def mkCPU : CPU :=
  { ram := fun _ => 0, stack := [], v := fun _ => 0, pc := 0x200, i := 0,
    dt := 0, st := 0, blocked := false, keys := initKeys,
    fb := fun _ _ => false, rng := fun _ => 0, rngIdx := 0 }

/-- Observation helper: the value of register `r` after a successful
execution. -/
def okV (e : Except EmuError CPU) (r : Nat) : Option Nat :=
  match e with
  | .ok s => some (s.v r)
  | .error _ => none

/-- Observation helper: the framebuffer pixel `(x, y)` after a successful
execution. -/
def okPixel (e : Except EmuError CPU) (x y : Nat) : Option Bool :=
  match e with
  | .ok s => some (s.fb x y)
  | .error _ => none

/-- Observation helper: the program counter after a successful execution. -/
def okPC : Except EmuError CPU → Option Nat
  | .ok s => some s.pc
  | .error _ => none

/-- Observation helper: the number of keypad-map entries after a successful
execution. -/
def okKeysLen : Except EmuError CPU → Option Nat
  | .ok s => some s.keys.length
  | .error _ => none

/-- Observation helper: the error produced by an execution, if any. -/
def errOf : Except EmuError CPU → Option EmuError
  | .error e => some e
  | .ok _ => none

/-- State for the DRW probe: `I = 0` and the single sprite byte `0x80`
(only the bit of column 0 set) stored at address 0. -/
def c1st : CPU := { mkCPU with ram := fun a => if a = 0 then 0x80 else 0 }

/-- State for the ADD-carry probe: `V0 = 1`, `V1 = 254`, so the unwrapped
sum is exactly 255. -/
def c2st : CPU := { mkCPU with v := fun r => if r = 0 then 1 else if r = 1 then 254 else 0 }

/-- State for the SUBN probe: `V1 = 0`, `V2 = 5`. -/
def c3st : CPU := { mkCPU with v := fun r => if r = 1 then 0 else if r = 2 then 5 else 0 }

/-- Program memory holding the single instruction `LD V3,K` (`0xF30A`) at
the load offset `0x200`. -/
def c5ram : Nat → Nat :=
  fun a => if a = 0x200 then 0xF3 else if a = 0x201 then 0x0A else 0

/-- Key-wait probe state with no key pressed. -/
def c5stA : CPU := { mkCPU with ram := c5ram }

/-- Key-wait probe state with exactly key 7 pressed. -/
def c5stB : CPU := { mkCPU with ram := c5ram, keys := pressedKeys 7 }

/-- A dirty pre-`init` machine state: every register (including `VF`)
holds 7, timers and `I` nonzero, engine blocked, keypad map empty. -/
def c6pre : CPU :=
  { mkCPU with v := fun _ => 7, dt := 3, st := 4, i := 9, pc := 0, blocked := true, keys := [] }

/-- Fetch probe state with `pc = 4095`: the low byte of the fetched word
lies at index 4096, one past the end of the 4096-byte memory array. -/
def c7st : CPU := { mkCPU with pc := 4095, ram := fun _ => 0xAB }

/-- Fetch probe state with distinct bytes `0x12`/`0x34` at `pc`/`pc+1`. -/
def c7st2 : CPU :=
  { mkCPU with ram := fun a => if a = 0x200 then 0x12 else if a = 0x201 then 0x34 else 0 }

/-- SKNP probe state with `V0 = 0x10`, a key code outside the 16 standard
codes of the keypad map. -/
def c9cst : CPU := { mkCPU with v := fun r => if r = 0 then 0x10 else 0 }

/-- The machine obtained by executing `SKP V0` (`0xE09E`) on `mkCPU`. -/
def c9wAfter : CPU :=
  match CPU.execute mkCPU 0xE09E with
  | .ok s => s
  | .error _ => mkCPU

/-- Register-dump probe state: `I = 0x300`, all registers 3, memory 9 on
`[0, 0x310)`. -/
def c10pre : CPU :=
  { mkCPU with i := 0x300, v := fun _ => 3, ram := fun a => if a < 0x310 then 9 else 0 }

/-- The machine obtained by executing `LD V2,[I]` (`0xF265`) on
`c10pre`. -/
def c10after : CPU :=
  match CPU.execute c10pre 0xF265 with
  | .ok s => s
  | .error _ => c10pre

/-- A successful lookup pins down an entry of the map with the looked-up
key. -/
theorem lookupKeys_mem {l : List (Nat × Nat)} {code s : Nat}
    (h : lookupKeys l code = some s) : ∃ p ∈ l, p.1 = code := by
  induction l with
  | nil => simp [lookupKeys] at h
  | cons hd tl ih =>
    obtain ⟨c, t⟩ := hd
    by_cases hc : code = c
    · exact ⟨(c, t), List.mem_cons_self _ _, hc.symm⟩
    · simp only [lookupKeys, if_neg hc] at h
      obtain ⟨p, hp, hpc⟩ := ih h
      exact ⟨p, List.mem_cons_of_mem _ hp, hpc⟩

/-- On a key-sorted map, `operator[]` of a present key leaves the map
unchanged. -/
theorem mapIndex_snd_of_mem (l : List (Nat × Nat)) (code : Nat)
    (hp : l.Pairwise (fun a b => a.1 < b.1)) (h : (lookupKeys l code).isSome = true) :
    (mapIndex l code).2 = l := by
  induction l with
  | nil => simp [lookupKeys] at h
  | cons hd tl ih =>
    obtain ⟨c, t⟩ := hd
    by_cases hc : code = c
    · simp [mapIndex, hc]
    · by_cases hlt : code < c
      · exfalso
        simp only [lookupKeys, if_neg hc, Option.isSome] at h
        obtain ⟨s, hs⟩ : ∃ s, lookupKeys tl code = some s := by
          cases hx : lookupKeys tl code with
          | none => rw [hx] at h; simp at h
          | some s => exact ⟨s, rfl⟩
        obtain ⟨p, hmem, hpc⟩ := lookupKeys_mem hs
        have := (List.pairwise_cons.mp hp).1 p hmem
        omega
      · have hgt : c < code := by omega
        simp only [mapIndex, if_neg hc, if_neg hlt]
        have := ih (List.pairwise_cons.mp hp).2 (by simpa [lookupKeys, if_neg hc] using h)
        simp [this]

/-- `operator[]` of an absent key grows the map by exactly one entry. -/
theorem mapIndex_len_of_none (l : List (Nat × Nat)) (code : Nat)
    (h : lookupKeys l code = none) : (mapIndex l code).2.length = l.length + 1 := by
  induction l with
  | nil => simp [mapIndex]
  | cons hd tl ih =>
    obtain ⟨c, t⟩ := hd
    by_cases hc : code = c
    · simp [lookupKeys, hc] at h
    · simp only [lookupKeys, if_neg hc] at h
      by_cases hlt : code < c
      · simp [mapIndex, if_neg hc, hlt]
      · simp [mapIndex, if_neg hc, hlt, ih h]

/-- `operator[]` of an absent key inserts it with the default value 0. -/
theorem mapIndex_lookup_self_of_none (l : List (Nat × Nat)) (code : Nat)
    (h : lookupKeys l code = none) : lookupKeys (mapIndex l code).2 code = some 0 := by
  induction l with
  | nil => simp [mapIndex, lookupKeys]
  | cons hd tl ih =>
    obtain ⟨c, t⟩ := hd
    by_cases hc : code = c
    · simp [lookupKeys, hc] at h
    · simp only [lookupKeys, if_neg hc] at h
      by_cases hlt : code < c
      · simp [mapIndex, if_neg hc, hlt, lookupKeys]
      · simp [mapIndex, if_neg hc, hlt, lookupKeys, ih h]

/-- `operator[]` never changes the mapping of any key other than the
accessed one. -/
theorem mapIndex_lookup_ne (l : List (Nat × Nat)) (code c : Nat) (hne : c ≠ code) :
    lookupKeys (mapIndex l code).2 c = lookupKeys l c := by
  induction l with
  | nil => simp [mapIndex, lookupKeys, if_neg hne]
  | cons hd tl ih =>
    obtain ⟨k, t⟩ := hd
    by_cases hc : code = k
    · rw [show (mapIndex ((k, t) :: tl) code).2 = (k, t) :: tl from by simp [mapIndex, hc]]
    · by_cases hlt : code < k
      · rw [show (mapIndex ((k, t) :: tl) code).2 = (code, 0) :: (k, t) :: tl from by
            simp [mapIndex, if_neg hc, hlt]]
        rw [show lookupKeys ((code, 0) :: (k, t) :: tl) c = lookupKeys ((k, t) :: tl) c from by
            simp [lookupKeys, if_neg hne]]
      · rw [show (mapIndex ((k, t) :: tl) code).2 = (k, t) :: (mapIndex tl code).2 from by
            simp [mapIndex, if_neg hc, hlt]]
        by_cases hck : c = k
        · simp [lookupKeys, hck]
        · simp only [lookupKeys, if_neg hck]
          exact ih

/-- The `0xFx55` loop never touches the keypad map. -/
theorem storeRegs_keys (l : List Nat) (m : CPU) : (storeRegs m l).keys = m.keys := by
  induction l generalizing m with
  | nil => rfl
  | cons a t ih => simp [storeRegs, ih]

/-- The `0xFx65` loop never touches the keypad map. -/
theorem loadRegs_keys (l : List Nat) (m : CPU) : (loadRegs m l).keys = m.keys := by
  induction l generalizing m with
  | nil => rfl
  | cons a t ih => simp [loadRegs, ih]

/-- The `0xFx55` loop never changes the index register. -/
theorem storeRegs_i (l : List Nat) (m : CPU) : (storeRegs m l).i = m.i := by
  induction l generalizing m with
  | nil => rfl
  | cons a t ih => simp [storeRegs, ih]

/-- The `0xFx65` loop never changes the index register. -/
theorem loadRegs_i (l : List Nat) (m : CPU) : (loadRegs m l).i = m.i := by
  induction l generalizing m with
  | nil => rfl
  | cons a t ih => simp [loadRegs, ih]

/-- The `0xFx65` loop leaves every register it does not index unchanged. -/
theorem loadRegs_v_notmem (l : List Nat) (m : CPU) (r : Nat) (h : ∀ idx ∈ l, idx ≠ r) :
    (loadRegs m l).v r = m.v r := by
  induction l generalizing m with
  | nil => rfl
  | cons a t ih =>
    rw [loadRegs, ih _ (fun idx hm => h idx (List.mem_cons_of_mem a hm))]
    simp [updateFn, Ne.symm (h a (List.mem_cons_self a t))]

/-- Case analysis of `CPU::execute` with respect to its keypad effect: a
successful execution either leaves `keys` untouched (every group except
`0xE`), or is an `0xE` instruction and replaces `keys` by the result of the
`std::map::operator[]` access on `v[x]`. -/
theorem execute_keys_cases (m : CPU) (opcode : Nat) (m' : CPU)
    (hexec : m.execute opcode = .ok m') :
    ((opcode &&& 0xf000) >>> 12 ≠ 0xE ∧ m'.keys = m.keys) ∨
    ((opcode &&& 0xf000) >>> 12 = 0xE ∧
       m'.keys = (mapIndex m.keys (m.v ((opcode &&& 0x0f00) >>> 8))).2) := by
  unfold CPU.execute at hexec
  repeat' split at hexec
  all_goals first
    | exact Except.noConfusion hexec
    | (injection hexec with h; subst h;
       first
         | exact Or.inl ⟨by omega, rfl⟩
         | exact Or.inl ⟨by omega, storeRegs_keys _ _⟩
         | exact Or.inl ⟨by omega, loadRegs_keys _ _⟩
         | exact Or.inr ⟨by assumption, rfl⟩)

/-- Scanning the all-released keypad map stores nothing and reports the
engine blocked. -/
theorem keyScan_initKeys (target : Nat) (v : Nat → Nat) :
    keyScan target initKeys v = (v, true) := rfl

/-- Scanning a map with exactly key `k` pressed stores `k` into the target
register and reports the engine unblocked. -/
theorem keyScan_pressedKeys (target k : Nat) (hk : k < 16) (v : Nat → Nat) :
    keyScan target (pressedKeys k) v = (updateFn v target k, false) := by
  interval_cases k <;> rfl

/-- One cycle of `LD Vx,K` with no key pressed: the fetch advances `pc` by
2, the instruction blocks, and the rewind restores `pc`, so the only net
change is `blocked := true`. -/
theorem cycle_keywait_blocked (m : CPU) (hpc : m.pc < 65536)
    (hk : ((m.ram m.pc <<< 8) + m.ram (m.pc + 1)) &&& 0xf000 = 0xF000)
    (hlo : ((m.ram m.pc <<< 8) + m.ram (m.pc + 1)) &&& 0x00ff = 0x0A)
    (hkeys : m.keys = initKeys) :
    m.cycle = .ok { m with blocked := true } := by
  have hne : ¬ ((m.ram m.pc <<< 8) + m.ram (m.pc + 1) = 0) := by
    intro h0; rw [h0] at hk; simp at hk
  have hk12 : (((m.ram m.pc <<< 8) + m.ram (m.pc + 1)) &&& 0xf000) >>> 12 = 15 := by
    rw [hk]; decide
  unfold CPU.cycle CPU.fetch_opcode CPU.execute
  simp only []
  rw [if_neg hne, hk12, hlo, hkeys, keyScan_initKeys]
  simp only [Except.ok.injEq]
  have harith : (((m.pc + 2) % 65536) + 65534) % 65536 = m.pc := by omega
  obtain ⟨ram, stk, v, pc, i, dt, st, blk, keys, fb, rng, ri⟩ := m
  simp_all

/-- One cycle of `LD Vx,K` with exactly key `k` pressed: `v[x]` receives
`k`, the engine is not blocked, and `pc` advances by 2. -/
theorem cycle_keywait_pressed (m : CPU) (k : Nat) (hk16 : k < 16)
    (hk : ((m.ram m.pc <<< 8) + m.ram (m.pc + 1)) &&& 0xf000 = 0xF000)
    (hlo : ((m.ram m.pc <<< 8) + m.ram (m.pc + 1)) &&& 0x00ff = 0x0A)
    (hkeys : m.keys = pressedKeys k) :
    m.cycle = .ok { m with
      pc := (m.pc + 2) % 65536
      v := updateFn m.v ((((m.ram m.pc <<< 8) + m.ram (m.pc + 1)) &&& 0x0f00) >>> 8) k
      blocked := false } := by
  have hne : ¬ ((m.ram m.pc <<< 8) + m.ram (m.pc + 1) = 0) := by
    intro h0; rw [h0] at hk; simp at hk
  have hk12 : (((m.ram m.pc <<< 8) + m.ram (m.pc + 1)) &&& 0xf000) >>> 12 = 15 := by
    rw [hk]; decide
  unfold CPU.cycle CPU.fetch_opcode CPU.execute
  simp only []
  rw [if_neg hne, hk12, hlo, hkeys, keyScan_pressedKeys _ _ hk16]
  rfl

/-- Any positive number of cycles of a blocked `LD Vx,K` (no key pressed)
produces the same state with only `blocked := true`. -/
theorem cycleN_blocked (m : CPU) (hpc : m.pc < 65536)
    (hk : ((m.ram m.pc <<< 8) + m.ram (m.pc + 1)) &&& 0xf000 = 0xF000)
    (hlo : ((m.ram m.pc <<< 8) + m.ram (m.pc + 1)) &&& 0x00ff = 0x0A)
    (hkeys : m.keys = initKeys) :
    ∀ n, 1 ≤ n → cycleN n m = .ok { m with blocked := true } := by
  have hstep := cycle_keywait_blocked m hpc hk hlo hkeys
  have hstep2 : CPU.cycle { m with blocked := true } = .ok { m with blocked := true } :=
    cycle_keywait_blocked { m with blocked := true } hpc hk hlo hkeys
  have haux : ∀ n, cycleN n { m with blocked := true } = .ok { m with blocked := true } := by
    intro n
    induction n with
    | zero => rfl
    | succ p ih => rw [cycleN, hstep2]; exact ih
  intro n hn
  obtain ⟨p, rfl⟩ : ∃ p, n = p + 1 := ⟨n - 1, by omega⟩
  rw [cycleN, hstep]
  exact haux p

/-- C1: the claim says a set sprite bit at column `col` toggles the pixel
at `((Vx+col) mod 64, (Vy+row) mod 32)`.  The code does not: the inner loop
runs `bit_index` from 8 down to 0 with `pixel_x = 8 - bit_index`, so every
sprite row lands one column to the right.  Evaluated at the failing input
(`DRW V0,V1,1` on `c1st`, sprite byte `0x80` whose only set bit is column
0, `V0 = V1 = 0`, dark screen): pixel (0,0) stays off and pixel (1,0) is
the one toggled on; likewise the byte `0x01` (set bit at column 7) toggles
column 8, not column 7.  No collision is reported (`VF = 0`). -/
theorem C1_drw_column_shift :
    okPixel (CPU.execute c1st 0xD011) 0 0 = some false ∧
    okPixel (CPU.execute c1st 0xD011) 1 0 = some true ∧
    okV (CPU.execute c1st 0xD011) 0xf = some 0 ∧
    (copy_to_framebuffer 0 0 [0x01] (fun _ _ => false)).1 8 0 = true ∧
    (copy_to_framebuffer 0 0 [0x01] (fun _ _ => false)).1 7 0 = false := by decide

/-- C2: the claim says `0x8xy4` sets `VF = 1` iff the unwrapped sum exceeds
255.  The code computes `carry = (Vx + Vy >= 0xff)`, so at the boundary sum
of exactly 255 (`V0 = 1`, `V1 = 254`, opcode `0x8014`) it sets `VF = 1`
although the sum does not exceed 255.  The mod-256 stores hold: `V0`
becomes 255 here, and `ADD V0,0xFF` (`0x70FF`) on the same state wraps
`V0` to `(1 + 255) % 256 = 0`. -/
theorem C2_add_carry_boundary :
    c2st.v 0 + c2st.v 1 = 255 ∧
    okV (CPU.execute c2st 0x8014) 0xf = some 1 ∧
    okV (CPU.execute c2st 0x8014) 0x0 = some 255 ∧
    okV (CPU.execute c2st 0x70FF) 0x0 = some 0 := by decide

/-- C3: the claim says SUBN sets `VF = 1` iff `Vy >= Vx` on the values held
before the subtraction.  The code assigns `Vx = Vy - Vx` first and only
then compares `Vy > Vx` against the freshly written `Vx`.  At `V1 = 0`,
`V2 = 5` (opcode `0x8127`, so `Vy = V2 >= Vx = V1` and the claim demands
`VF = 1`): the code stores `V1 = 5` and then sets
`VF = (5 > 5) = 0`. -/
theorem C3_subn_flag_post :
    c3st.v 2 ≥ c3st.v 1 ∧
    okV (CPU.execute c3st 0x8127) 1 = some 5 ∧
    okV (CPU.execute c3st 0x8127) 0xf = some 0 := by decide

/-- C4: CALL (`0x2nnn`) with at most 15 stacked return addresses pushes the
current `pc`, jumps to `nnn`, and the matching RET (`0x00EE`) restores
exactly that machine (popped `pc` and stack); CALL with 16 stacked
addresses (i.e. the 17th nested CALL from an empty stack) fails with
`StackOverflow`, and RET on an empty stack fails with `StackUnderflow`.
The closed conjuncts run 16 and 17 nested `CALL 0x345` instructions from
the freshly initialised machine: 16 succeed, the 17th overflows. -/
theorem C4_call_ret_stack (m : CPU) (opcode : Nat) (hk : opcode &&& 0xf000 = 0x2000) :
    (m.stack.length ≤ 15 →
      m.execute opcode = .ok { m with stack := m.pc :: m.stack, pc := opcode &&& 0x0fff } ∧
      CPU.execute { m with stack := m.pc :: m.stack, pc := opcode &&& 0x0fff } 0x00EE = .ok m) ∧
    (m.stack.length = 16 → m.execute opcode = .error .StackOverflow) ∧
    (m.stack = [] → m.execute 0x00EE = .error .StackUnderflow) ∧
    errOf (callN 16 mkCPU) = none ∧
    errOf (callN 17 mkCPU) = some EmuError.StackOverflow := by
  have hk12 : (opcode &&& 0xf000) >>> 12 = 2 := by rw [hk]; decide
  refine ⟨?_, ?_, ?_, by decide, by decide⟩
  · intro hlen
    constructor
    · unfold CPU.execute
      rw [hk12]
      show (if m.stack.length > 0xf then (Except.error EmuError.StackOverflow)
        else Except.ok { m with stack := m.pc :: m.stack, pc := opcode &&& 0x0fff }) = _
      rw [if_neg (by omega)]
    · rfl
  · intro hlen
    unfold CPU.execute
    rw [hk12]
    show (if m.stack.length > 0xf then (Except.error EmuError.StackOverflow)
      else Except.ok { m with stack := m.pc :: m.stack, pc := opcode &&& 0x0fff }) = _
    rw [if_pos (by omega)]
  · intro hempty
    unfold CPU.execute
    rw [hempty]
    rfl

/-- C4 witness: on the fresh machine, `CALL 0x345` pushes `0x200` and
jumps; RET on the result restores exactly the original machine; RET on the
empty stack underflows. -/
theorem C4_call_ret_stack_w :
    CPU.execute mkCPU 0x2345 = .ok { mkCPU with stack := [0x200], pc := 0x345 } ∧
    CPU.execute { mkCPU with stack := [0x200], pc := 0x345 } 0x00EE = .ok mkCPU ∧
    CPU.execute mkCPU 0x00EE = .error EmuError.StackUnderflow := by
  have h := C4_call_ret_stack mkCPU 0x2345 (by decide)
  obtain ⟨h1, h2, h3, h4, h5⟩ := h
  have hl := h1 (by decide)
  exact ⟨hl.1, hl.2, h3 rfl⟩

/-- C5: with `LD Vx,K` (`0xFx0A`) stored at `pc` and no key pressed, any
positive number of cycles leaves the machine unchanged except for
`blocked := true` — in particular `pc` is unchanged, because each cycle
fetches (`pc + 2`), blocks, and rewinds (`pc - 2`).  Once exactly one key
`k` is pressed, the next cycle stores `k` into the decoded target register
`x`, clears `blocked`, and advances `pc` normally by 2. -/
theorem C5_keywait (m : CPU) (hpc : m.pc < 65536)
    (hk : ((m.ram m.pc <<< 8) + m.ram (m.pc + 1)) &&& 0xf000 = 0xF000)
    (hlo : ((m.ram m.pc <<< 8) + m.ram (m.pc + 1)) &&& 0x00ff = 0x0A) :
    (m.keys = initKeys → ∀ n, 1 ≤ n → cycleN n m = .ok { m with blocked := true }) ∧
    (∀ k, k < 16 → m.keys = pressedKeys k →
       m.cycle = .ok { m with
         pc := (m.pc + 2) % 65536
         v := updateFn m.v ((((m.ram m.pc <<< 8) + m.ram (m.pc + 1)) &&& 0x0f00) >>> 8) k
         blocked := false }) :=
  ⟨fun hkeys => cycleN_blocked m hpc hk hlo hkeys,
   fun k hk16 hkeys => cycle_keywait_pressed m k hk16 hk hlo hkeys⟩

/-- C5 witness: `LD V3,K` at `0x200`; with no key pressed one cycle only
sets the blocked flag (`pc` still `0x200`), and with key 7 pressed the
cycle stores 7 into `V3` and advances `pc` to `0x202`. -/
theorem C5_keywait_w :
    cycleN 1 c5stA = .ok { c5stA with blocked := true } ∧
    CPU.cycle c5stB = .ok { c5stB with pc := 514, v := updateFn c5stB.v 3 7, blocked := false } := by
  have hA := C5_keywait c5stA (by decide) (by decide) (by decide)
  have hB := C5_keywait c5stB (by decide) (by decide) (by decide)
  exact ⟨hA.1 rfl 1 (by decide), hB.2 7 (by decide) rfl⟩

/-- C6: the claim says `init` zeroes all 16 registers.  `memset(this->v, 0,
0xf)` zeroes only 15 bytes, so on `c6pre` (every register 7 beforehand)
`V14` is cleared but `VF` keeps the value 7.  Every other initialisation
the claim lists does hold on this input: `pc = 0x200`, `I = DT = ST = 0`,
`blocked = false`, the 16-key map all released, the first 80 memory bytes
are the font table (`ram[0] = 0xF0`, `ram[79] = 0x80`) and the rest are
zero. -/
theorem C6_init_vf_not_cleared :
    (c6pre.init).v 14 = 0 ∧ (c6pre.init).v 15 = 7 ∧
    (c6pre.init).pc = 0x200 ∧ (c6pre.init).i = 0 ∧
    (c6pre.init).dt = 0 ∧ (c6pre.init).st = 0 ∧
    (c6pre.init).blocked = false ∧ (c6pre.init).keys = initKeys ∧
    (c6pre.init).ram 0 = 0xF0 ∧ (c6pre.init).ram 79 = 0x80 ∧
    (c6pre.init).ram 80 = 0 ∧ (c6pre.init).ram 0x200 = 0 := by decide

/-- C7: the claim says the fetch fails with `OutOfBounds` whenever
`address + 1` exceeds the 4096-byte capacity.  The code has no bounds check
at all: at `pc = 4095` (where `pc + 1 = 4096` is past the end of the
array) `fetch_opcode` returns normally — big-endian combination of the two
bytes it reads, `pc` advanced to 4097.  The big-endian/advance behaviour
itself is as claimed, shown on `c7st2` with bytes `0x12`/`0x34`:
the fetch returns `0x12 * 256 + 0x34` and advances `pc` by exactly 2. -/
theorem C7_fetch_no_bounds_check :
    c7st.fetch_opcode.1 = 0xAB * 256 + 0xAB ∧
    c7st.fetch_opcode.2.pc = 4097 ∧
    c7st.pc + 1 ≥ 4096 ∧
    c7st2.fetch_opcode.1 = 0x12 * 256 + 0x34 ∧
    c7st2.fetch_opcode.2.pc = c7st2.pc + 2 := by decide

/-- C8 counterexample: on the fresh machine (all memory zero, so the
fetched word is the `0x0000` sentinel), `cycle()` is not a state no-op:
the program counter moves from `0x200` to `0x202`. -/
theorem C8_counterexample :
    okPC (CPU.cycle mkCPU) = some 514 ∧ okPC (CPU.cycle mkCPU) ≠ some mkCPU.pc := by decide

/-- C8 (amended): when the word at `pc` is the `0x0000` sentinel, `cycle()`
executes nothing, but the fetch has already advanced `pc`, so the resulting
state is exactly the original with `pc := (pc + 2) % 65536` and every other
component unchanged. -/
theorem C8_sentinel_cycle (m : CPU) (h0 : m.ram m.pc = 0) (h1 : m.ram (m.pc + 1) = 0) :
    m.cycle = .ok { m with pc := (m.pc + 2) % 65536 } := by
  unfold CPU.cycle CPU.fetch_opcode
  simp only []
  rw [h0, h1]
  rfl

/-- C8 witness: one sentinel cycle on the fresh machine yields the same
machine with `pc = 0x202`. -/
theorem C8_sentinel_cycle_w :
    CPU.cycle mkCPU = .ok { mkCPU with pc := 514 } :=
  C8_sentinel_cycle mkCPU rfl rfl

/-- C9 counterexample: `SKNP V0` (`0xE0A1`) with `V0 = 0x10` does modify
the keypad mapping: `this->keys[0x10]` inserts a 17th entry into the
16-entry map. -/
theorem C9_counterexample :
    okKeysLen (CPU.execute c9cst 0xE0A1) = some 17 ∧ c9cst.keys.length = 16 := by decide

/-- C9 (amended): on a key-sorted keypad map containing all 16 standard
codes (as `init` establishes), every successfully executed instruction
leaves the mapped state of each of the 16 standard key codes unchanged;
an `0xE` instruction (SKP/SKNP) with `Vx ≤ 0xF` leaves the map itself
unchanged, while with an absent code (such as any `Vx > 0xF` never probed
before) it grows the map by one entry, mapping that code to released
(0). -/
theorem C9_keys_readonly (m : CPU) (opcode : Nat) (m' : CPU)
    (hsorted : m.keys.Pairwise (fun a b => a.1 < b.1))
    (hfull : ∀ c, c < 16 → (lookupKeys m.keys c).isSome = true)
    (hexec : m.execute opcode = .ok m') :
    (∀ c, c < 16 → lookupKeys m'.keys c = lookupKeys m.keys c) ∧
    ((opcode &&& 0xf000) >>> 12 = 0xE → m.v ((opcode &&& 0x0f00) >>> 8) ≤ 0xf →
       m'.keys = m.keys) ∧
    ((opcode &&& 0xf000) >>> 12 = 0xE →
       lookupKeys m.keys (m.v ((opcode &&& 0x0f00) >>> 8)) = none →
       m'.keys.length = m.keys.length + 1 ∧
       lookupKeys m'.keys (m.v ((opcode &&& 0x0f00) >>> 8)) = some 0) := by
  rcases execute_keys_cases m opcode m' hexec with ⟨hne, hkeq⟩ | ⟨hE, hkeq⟩
  · exact ⟨fun c hc => by rw [hkeq], fun hEe _ => absurd hEe hne, fun hEe _ => absurd hEe hne⟩
  · refine ⟨?_, ?_, ?_⟩
    · intro c hc
      rw [hkeq]
      by_cases hpres : (lookupKeys m.keys (m.v ((opcode &&& 0x0f00) >>> 8))).isSome = true
      · rw [mapIndex_snd_of_mem _ _ hsorted hpres]
      · refine mapIndex_lookup_ne _ _ _ ?_
        intro hcc
        exact hpres (hcc ▸ hfull c hc)
    · intro _ hle
      rw [hkeq, mapIndex_snd_of_mem _ _ hsorted (hfull _ (by omega))]
    · intro _ hnone
      rw [hkeq]
      exact ⟨mapIndex_len_of_none _ _ hnone, mapIndex_lookup_self_of_none _ _ hnone⟩

/-- C9 witness: `SKP V0` on the fresh machine (`V0 = 0`, a standard code)
preserves the lookup of key 3 and leaves the whole keypad map unchanged. -/
theorem C9_keys_readonly_w :
    lookupKeys c9wAfter.keys 3 = lookupKeys mkCPU.keys 3 ∧ c9wAfter.keys = mkCPU.keys := by
  have h := C9_keys_readonly mkCPU 0xE09E c9wAfter (by decide) (by decide) rfl
  exact ⟨h.1 3 (by decide), h.2.1 (by decide) (by decide)⟩

/-- C10: a successful `LD [I],Vx` (`0xFx55`) or `LD Vx,[I]` (`0xFx65`)
leaves the index register `I` unchanged, and `0xFx65` leaves every register
above the decoded `x` unchanged. -/
theorem C10_regdump (m : CPU) (opcode : Nat) (m' : CPU)
    (hk : opcode &&& 0xf000 = 0xF000)
    (hlow : opcode &&& 0x00ff = 0x55 ∨ opcode &&& 0x00ff = 0x65)
    (hexec : m.execute opcode = .ok m') :
    m'.i = m.i ∧
    (opcode &&& 0x00ff = 0x65 →
      ∀ r, (opcode &&& 0x0f00) >>> 8 < r → m'.v r = m.v r) := by
  have hk12 : (opcode &&& 0xf000) >>> 12 = 15 := by rw [hk]; decide
  rcases hlow with h55 | h65
  · have h2 : m.execute opcode =
        .ok (storeRegs m (List.range (((opcode &&& 0x0f00) >>> 8) + 1))) := by
      unfold CPU.execute
      rw [hk12, h55]
    rw [h2] at hexec
    injection hexec with h
    subst h
    refine ⟨storeRegs_i _ _, fun h65 => absurd (h55.symm.trans h65) (by decide)⟩
  · have h2 : m.execute opcode =
        .ok (loadRegs m (List.range (((opcode &&& 0x0f00) >>> 8) + 1))) := by
      unfold CPU.execute
      rw [hk12, h65]
    rw [h2] at hexec
    injection hexec with h
    subst h
    refine ⟨loadRegs_i _ _, fun _ r hr => ?_⟩
    refine loadRegs_v_notmem _ _ _ (fun idx hidx => ?_)
    have := List.mem_range.mp hidx
    omega

/-- C10 witness: `LD V2,[I]` on `c10pre` keeps `I = 0x300` and keeps `V5`
(a register above `x = 2`) at its old value. -/
theorem C10_regdump_w :
    c10after.i = c10pre.i ∧ c10after.v 5 = c10pre.v 5 := by
  have h := C10_regdump c10pre 0xF265 c10after (by decide) (Or.inr (by decide)) rfl
  exact ⟨h.1, h.2 (by decide) 5 (by decide)⟩

end Octopus
